import Mathlib

/-!
Verification of the Blackjack rules core of the terminal_games repository
(src/blackJack.py) against its natural-language specification.

Cards are modelled as rank/suit pairs: the source represents a card as the
string "Rank-Suit" and `get_rank` recovers the rank part by splitting on the
hyphen, so the pair is the exact information content of a card string.
Balances ("Rocks") are modelled as integers (`Int`), since the source's
settlement arithmetic can drive a balance below zero; bet amounts are the
positive machine integers validated by `get_valid_bet`, modelled as `Nat`.
-/

namespace BlackJack

/-- The thirteen ranks of RANKS in src/blackJack.py line 18. -/
inductive Rank where
  | r2 | r3 | r4 | r5 | r6 | r7 | r8 | r9 | r10
  | J | Q | K | A
  deriving DecidableEq, Repr, Fintype

/-- The four suits of SUITS in src/blackJack.py line 17. -/
inductive Suit where
  | Hearts | Diamonds | Clubs | Spades
  deriving DecidableEq, Repr, Fintype

/-- A card "Rank-Suit"; the pair of its rank and suit components. -/
abbrev Card := Rank × Suit

/-- Embeds get_rank (line 81): the rank component of a card string. -/
def get_rank (card : Card) : Rank := card.1

/-- Embeds the first pass of calculate_hand_value (lines 113-119): number
cards count face value, J/Q/K count 10, an Ace initially counts 11. -/
def rank_value : Rank → Nat
  | .r2 => 2
  | .r3 => 3
  | .r4 => 4
  | .r5 => 5
  | .r6 => 6
  | .r7 => 7
  | .r8 => 8
  | .r9 => 9
  | .r10 => 10
  | .J => 10
  | .Q => 10
  | .K => 10
  | .A => 11

/-- Embeds ranks.count('A') (line 109). -/
def ace_count (hand : List Card) : Nat :=
  (hand.map get_rank).count Rank.A

/-- Embeds the first-pass total of calculate_hand_value (lines 110-119). -/
def initial_total (hand : List Card) : Nat :=
  ((hand.map get_rank).map rank_value).sum

/-- Embeds the softening loop of calculate_hand_value (lines 122-124):
while total > 21 and ace_count > 0, subtract 10 and consume one Ace. -/
def soften : Nat → Nat → Nat
  | total, 0 => total
  | total, aces + 1 => if 21 < total then soften (total - 10) aces else total

/-- Embeds calculate_hand_value (lines 85-126). -/
def calculate_hand_value (hand : List Card) : Nat :=
  soften (initial_total hand) (ace_count hand)

/-- Embeds is_blackjack (lines 128-147): exactly two cards valued 21. -/
def is_blackjack (hand : List Card) : Bool :=
  hand.length = 2 && calculate_hand_value hand = 21

/-- Embeds the inline bust checks (lines 358, 400, 428, 454, 477, 494):
a hand is bust when its value exceeds 21. -/
def is_bust (hand : List Card) : Bool :=
  21 < calculate_hand_value hand

/-- The value of a rank when every Ace is counted as 1; the smallest value
a rank can contribute to a hand total. -/
def rank_min_value (r : Rank) : Nat :=
  if r = Rank.A then 1 else rank_value r

/-- The minimum achievable total of a hand: every Ace counted as 1. -/
def min_total (hand : List Card) : Nat :=
  ((hand.map get_rank).map rank_min_value).sum

/-- Modelled from the spec: the totals achievable by independently counting
each of the hand's Aces as 1 or 11, namely minimum total plus 10 for each
Ace promoted to 11. -/
def achievable_totals (hand : List Card) : List Nat :=
  (List.range (ace_count hand + 1)).map (fun k => min_total hand + 10 * k)

/-- Modelled from the spec: the maximum achievable total that is at most 21,
or the minimum achievable total (all Aces as 1) if even that exceeds 21. -/
def spec_hand_value (hand : List Card) : Nat :=
  let good := (achievable_totals hand).filter (fun t => t ≤ 21)
  if good.isEmpty then min_total hand else good.foldr max 0

/-- Closed form shared by the source computation and the spec description. -/
def best_value (m n : Nat) : Nat :=
  if 21 < m then m else m + 10 * min n ((21 - m) / 10)

theorem rank_value_eq_min (r : Rank) :
    rank_value r = rank_min_value r + (if r = Rank.A then 10 else 0) := by
  cases r <;> simp [rank_value, rank_min_value]

theorem initial_total_eq (hand : List Card) :
    initial_total hand = min_total hand + 10 * ace_count hand := by
  induction hand with
  | nil => simp [initial_total, min_total, ace_count]
  | cons c t ih =>
      simp only [initial_total, min_total, ace_count, List.map_cons,
        List.sum_cons, List.count_cons] at *
      rw [rank_value_eq_min (get_rank c)]
      by_cases h : get_rank c = Rank.A
      · simp [h] at *
        omega
      · simp [h] at *
        omega

theorem soften_eq_best (n m : Nat) : soften (m + 10 * n) n = best_value m n := by
  induction n generalizing m with
  | zero => simp [soften, best_value]
  | succ k ih =>
      show (if 21 < m + 10 * (k + 1) then
              soften (m + 10 * (k + 1) - 10) k
            else m + 10 * (k + 1)) = best_value m (k + 1)
      by_cases h : 21 < m + 10 * (k + 1)
      · rw [if_pos h]
        have h10 : m + 10 * (k + 1) - 10 = m + 10 * k := by omega
        rw [h10, ih]
        unfold best_value
        by_cases hm : 21 < m
        · rw [if_pos hm, if_pos hm]
        · rw [if_neg hm, if_neg hm]
          have hq : (21 - m) / 10 ≤ k := by omega
          rw [Nat.min_eq_right hq, Nat.min_eq_right (le_trans hq (Nat.le_succ k))]
      · rw [if_neg h]
        unfold best_value
        have hm : ¬ 21 < m := by omega
        rw [if_neg hm]
        have hq : k + 1 ≤ (21 - m) / 10 := by omega
        rw [Nat.min_eq_left hq]

theorem calculate_hand_value_eq_best (hand : List Card) :
    calculate_hand_value hand = best_value (min_total hand) (ace_count hand) := by
  rw [calculate_hand_value, initial_total_eq, soften_eq_best]

theorem foldr_max_le {l : List Nat} {b : Nat} (h : ∀ x ∈ l, x ≤ b) :
    l.foldr max 0 ≤ b := by
  induction l with
  | nil => exact Nat.zero_le b
  | cons a t ih =>
      simp only [List.foldr_cons]
      have ha : a ≤ b := h a (List.mem_cons_self a t)
      have ht : t.foldr max 0 ≤ b := ih (fun x hx => h x (List.mem_cons_of_mem a hx))
      omega

theorem le_foldr_max {l : List Nat} {a : Nat} (h : a ∈ l) :
    a ≤ l.foldr max 0 := by
  induction l with
  | nil => cases h
  | cons x t ih =>
      simp only [List.foldr_cons]
      rcases List.mem_cons.mp h with h1 | h1
      · omega
      · have := ih h1
        omega

theorem spec_hand_value_eq_best (hand : List Card) :
    spec_hand_value hand = best_value (min_total hand) (ace_count hand) := by
  set m := min_total hand with hm
  set n := ace_count hand with hn
  by_cases h21 : 21 < m
  · have hfilter : (achievable_totals hand).filter (fun t => t ≤ 21) = [] := by
      apply List.filter_eq_nil_iff.mpr
      intro a ha
      simp only [achievable_totals, List.mem_map, List.mem_range] at ha
      obtain ⟨k, _, rfl⟩ := ha
      simp only [decide_eq_true_eq]
      omega
    simp [spec_hand_value, hfilter, best_value, h21]
  · set K := min n ((21 - m) / 10) with hK
    have hKn : K ≤ n := Nat.min_le_left _ _
    have hK21 : m + 10 * K ≤ 21 := by
      have h1 : K ≤ (21 - m) / 10 := Nat.min_le_right _ _
      have h2 : 10 * ((21 - m) / 10) ≤ 21 - m := by omega
      omega
    have hmem : m + 10 * K ∈ (achievable_totals hand).filter (fun t => t ≤ 21) := by
      apply List.mem_filter.mpr
      refine ⟨?_, by simp only [decide_eq_true_eq]; exact hK21⟩
      simp only [achievable_totals, List.mem_map, List.mem_range]
      exact ⟨K, by omega, rfl⟩
    have hne : ((achievable_totals hand).filter (fun t => t ≤ 21)).isEmpty = false := by
      cases hfe : (achievable_totals hand).filter (fun t => t ≤ 21) with
      | nil => rw [hfe] at hmem; cases hmem
      | cons a t => simp
    have hle : ((achievable_totals hand).filter (fun t => t ≤ 21)).foldr max 0 ≤ m + 10 * K := by
      apply foldr_max_le
      intro x hx
      obtain ⟨hx1, hx2⟩ := List.mem_filter.mp hx
      simp only [achievable_totals, List.mem_map, List.mem_range] at hx1
      obtain ⟨k, hk, rfl⟩ := hx1
      simp only [decide_eq_true_eq] at hx2
      have : k ≤ K := by
        rw [hK]
        have : k ≤ (21 - m) / 10 := by omega
        omega
      omega
    have hge : m + 10 * K ≤ ((achievable_totals hand).filter (fun t => t ≤ 21)).foldr max 0 :=
      le_foldr_max hmem
    simp only [spec_hand_value, hne, Bool.false_eq_true, if_false]
    rw [best_value, if_neg h21, ← hK]
    omega

theorem best_value_ge (m n : Nat) : m ≤ best_value m n := by
  unfold best_value
  split
  · exact Nat.le_refl m
  · exact Nat.le_add_right m _

theorem min_total_le_value (hand : List Card) :
    min_total hand ≤ calculate_hand_value hand := by
  rw [calculate_hand_value_eq_best]
  exact best_value_ge _ _

theorem rank_min_value_pos (r : Rank) : 1 ≤ rank_min_value r := by
  cases r <;> simp [rank_min_value, rank_value]

theorem min_total_append_singleton (hand : List Card) (c : Card) :
    min_total (hand ++ [c]) = min_total hand + rank_min_value (get_rank c) := by
  simp [min_total, List.map_append, List.sum_append]

/-- Embeds the constants NUM_DECKS (line 19) and DEALER_HIT_STAY_VALUE
(line 20). -/
def NUM_DECKS : Nat := 6

/-- Embeds DEALER_HIT_STAY_VALUE (line 20). -/
def DEALER_HIT_STAY_VALUE : Nat := 17

/-- The list RANKS of line 18, in source order. -/
def RANKS : List Rank :=
  [Rank.r2, Rank.r3, Rank.r4, Rank.r5, Rank.r6, Rank.r7, Rank.r8, Rank.r9,
   Rank.r10, Rank.J, Rank.Q, Rank.K, Rank.A]

/-- The tuple SUITS of line 17, in source order. -/
def SUITS : List Suit :=
  [Suit.Hearts, Suit.Diamonds, Suit.Clubs, Suit.Spades]

/-- Embeds create_deck (lines 25-39): the comprehension
[rank-suit for rank in RANKS for suit in SUITS] repeated num_decks times,
then shuffled. random.shuffle permutes the list in place; it is modelled by
an explicit shuffle function, assumed length-preserving where needed. -/
def create_deck (num_decks : Nat) (shuffle : List Card → List Card) : List Card :=
  shuffle (List.flatten (List.replicate num_decks
    (RANKS.flatMap fun r => SUITS.map fun s => (r, s))))

/-- Embeds deal_card (lines 41-63): if the deck is empty it is first replaced
by reshuffle_func(); then deck.pop() removes and returns the last card.
Python's pop raises on an empty list, so the result is an Option: none is
the error case in which even the reshuffled deck is empty. -/
def deal_card (deck : List Card) (reshuffle_func : Unit → List Card) :
    Option (Card × List Card) :=
  let deck1 := if deck.isEmpty then reshuffle_func () else deck
  match deck1.getLast? with
  | none => none
  | some c => some (c, deck1.dropLast)

/-- Draws n cards in sequence through deal_card with the round's reshuffle
function (lambda: create_deck(NUM_DECKS), lines 245-248 and passim),
returning the remaining deck together with the number of internal reshuffles
(the "Deck was empty" events of line 60) that occurred. -/
def draw_n (shuffle : List Card → List Card) (num_decks : Nat) :
    Nat → List Card → Option (List Card × Nat)
  | 0, deck => some (deck, 0)
  | n + 1, deck =>
      match deal_card deck (fun _ => create_deck num_decks shuffle) with
      | none => none
      | some (_, deck1) =>
          match draw_n shuffle num_decks n deck1 with
          | none => none
          | some (d, r) => some (d, r + (if deck.isEmpty then 1 else 0))

/-- Embeds the dealer drawing loop (lines 385-388 and 479-482): while
calculate_hand_value(dealer_hand) < DEALER_HIT_STAY_VALUE, append a card
dealt via deal_card with the reshuffle lambda. Terminates because every
card adds at least 1 to the minimum total, which bounds the value below. -/
def dealer_turn (shuffle : List Card → List Card) (dealer_hand : List Card)
    (deck : List Card) : List Card × List Card :=
  if _h : calculate_hand_value dealer_hand < DEALER_HIT_STAY_VALUE then
    match deal_card deck (fun _ => create_deck NUM_DECKS shuffle) with
    | none => (dealer_hand, deck)
    | some (c, deck1) => dealer_turn shuffle (dealer_hand ++ [c]) deck1
  else (dealer_hand, deck)
termination_by DEALER_HIT_STAY_VALUE - min_total dealer_hand
decreasing_by
  simp only [min_total_append_singleton]
  have h1 := min_total_le_value dealer_hand
  have h2 := rank_min_value_pos (get_rank c)
  simp only [DEALER_HIT_STAY_VALUE] at *
  omega

/-- Embeds the insurance phase (lines 259-297). Parameters record whether
the dealer's up-card is an Ace, whether each side holds a natural blackjack,
and the player's y/n answer. Sum.inr is an early return ending the round
with the given final balance (lines 286, 289); Sum.inl continues the round
with the balance as updated so far. -/
def insurance_phase (rocks : Int) (bet : Nat)
    (dealer_up_ace player_bj dealer_bj take : Bool) : Sum Int Int :=
  if dealer_up_ace && decide (((bet / 2 : Nat) : Int) ≤ rocks) then
    if take then
      let insurance_bet : Nat := bet / 2
      let rocks1 := rocks - (insurance_bet : Int)
      if dealer_bj then
        let rocks2 := rocks1 + (insurance_bet : Int) * 2
        if player_bj then Sum.inr (rocks2 + (bet : Int))
        else Sum.inr rocks2
      else Sum.inl rocks1
    else Sum.inl rocks
  else Sum.inl rocks

/-- Embeds the immediate-blackjack settlement (lines 299-311). int(bet * 1.5)
on a nonnegative machine integer bet is the truncation of 1.5 times the bet,
i.e. bet * 3 / 2 in natural-number division. none means neither side has
blackjack and the round continues. -/
def immediate_settlement (rocks : Int) (bet : Nat)
    (player_bj dealer_bj : Bool) : Option Int :=
  if player_bj && dealer_bj then some rocks
  else if player_bj then some (rocks + ((bet * 3 / 2 : Nat) : Int))
  else if dealer_bj then some (rocks - (bet : Int))
  else none

/-- Embeds the per-hand result evaluation of the split settlement
(lines 400-412): the winnings added to total_winnings for one split hand. -/
def split_hand_winnings (bet : Nat) (dealer_value : Nat) (hand : List Card) : Nat :=
  let hand_value := calculate_hand_value hand
  if 21 < hand_value then 0
  else if 21 < dealer_value then bet * 2
  else if dealer_value < hand_value then bet * 2
  else if hand_value < dealer_value then 0
  else bet

/-- Embeds the balance accounting of an accepted split (lines 337-415):
one additional bet is deducted (line 344), the dealer's final value is
computed once (line 390), each split hand contributes its winnings to
total_winnings, and the round returns rocks plus total_winnings (line 415). -/
def split_settlement (rocks : Int) (bet : Nat) (split_hands : List (List Card))
    (dealer_hand : List Card) : Int :=
  let rocks1 := rocks - (bet : Int)
  let dealer_value := calculate_hand_value dealer_hand
  let total_winnings := (split_hands.map fun h => split_hand_winnings bet dealer_value h).sum
  rocks1 + (total_winnings : Int)

/-- Embeds the double-down branch and its settlement (lines 443-457 and
476-505): deduct one additional bet, double the bet, append exactly one
card; a bust returns immediately (line 456), otherwise the hand is compared
against the dealer's final hand with the doubled bet (lines 494-505). -/
def double_down_play (rocks : Int) (bet : Nat) (player_hand : List Card)
    (extra : Card) (dealer_hand : List Card) : Int :=
  let rocks1 := rocks - (bet : Int)
  let bet2 := bet * 2
  let hand1 := player_hand ++ [extra]
  let player_value := calculate_hand_value hand1
  if 21 < player_value then rocks1
  else
    let dealer_value := calculate_hand_value dealer_hand
    if 21 < dealer_value then rocks1 + (bet2 : Int)
    else if player_value < dealer_value then rocks1 - (bet2 : Int)
    else if dealer_value < player_value then rocks1 + (bet2 : Int)
    else rocks1

/-- The player decisions of the PlayerTurn phase. -/
inductive PlayerAction where
  | hit
  | stand
  | double
  deriving DecidableEq, Repr

/-- Embeds the input handling of the split-hand play loop (lines 362-375):
the prompt is "Hit or Stand? (h/s)", 'h' hits, 's' stands, and every other
answer (including 'd') is "Invalid choice" and re-prompts (none). -/
def split_hand_action (choice : String) : Option PlayerAction :=
  if choice = "h" then some PlayerAction.hit
  else if choice = "s" then some PlayerAction.stand
  else none

/-- Embeds the input handling of the unsplit play loop (lines 433-473):
with exactly 2 cards and can_double_down the prompt offers h/s/d and 'd'
doubles; otherwise only h/s are accepted. -/
def main_hand_action (hand_len : Nat) (can_double_down : Bool)
    (choice : String) : Option PlayerAction :=
  if hand_len = 2 && can_double_down then
    if choice = "d" then some PlayerAction.double
    else if choice = "h" then some PlayerAction.hit
    else if choice = "s" then some PlayerAction.stand
    else none
  else
    if choice = "h" then some PlayerAction.hit
    else if choice = "s" then some PlayerAction.stand
    else none

theorem getLast_of_ne_nil {l : List Card} (h : l ≠ []) : ∃ c, l.getLast? = some c := by
  cases hl : l.getLast? with
  | none => exact absurd (List.getLast?_eq_none_iff.mp hl) h
  | some c => exact ⟨c, rfl⟩

theorem single_deck_length :
    (RANKS.flatMap fun r => SUITS.map fun s => ((r, s) : Card)).length = 52 := by
  decide

theorem create_deck_length (num_decks : Nat) (shuffle : List Card → List Card)
    (hs : ∀ l : List Card, (shuffle l).length = l.length) :
    (create_deck num_decks shuffle).length = num_decks * 52 := by
  rw [create_deck, hs, List.length_flatten, List.map_replicate, single_deck_length,
    List.sum_replicate, smul_eq_mul]

theorem deal_card_some (num_decks : Nat) (shuffle : List Card → List Card)
    (hnd : 1 ≤ num_decks) (hs : ∀ l : List Card, (shuffle l).length = l.length)
    (deck : List Card) :
    ∃ c deck1, deal_card deck (fun _ => create_deck num_decks shuffle) = some (c, deck1) := by
  simp only [deal_card]
  cases he : deck.isEmpty with
  | true =>
      simp only [he, if_true]
      have hlen : (create_deck num_decks shuffle).length = num_decks * 52 :=
        create_deck_length _ _ hs
      have hne : create_deck num_decks shuffle ≠ [] := by
        intro hnil
        rw [hnil] at hlen
        simp at hlen
        omega
      obtain ⟨c, hc⟩ := getLast_of_ne_nil hne
      rw [hc]
      exact ⟨c, _, rfl⟩
  | false =>
      simp only [he, Bool.false_eq_true, if_false]
      have hne : deck ≠ [] := by
        intro hnil
        subst hnil
        simp at he
      obtain ⟨c, hc⟩ := getLast_of_ne_nil hne
      rw [hc]
      exact ⟨c, _, rfl⟩

theorem dealer_turn_length_le (shuffle : List Card → List Card) :
    ∀ (fuel : Nat) (hand deck : List Card),
      DEALER_HIT_STAY_VALUE - min_total hand ≤ fuel →
      hand.length ≤ (dealer_turn shuffle hand deck).1.length := by
  intro fuel
  induction fuel with
  | zero =>
      intro hand deck hf
      have hge : ¬ calculate_hand_value hand < DEALER_HIT_STAY_VALUE := by
        have := min_total_le_value hand
        simp only [DEALER_HIT_STAY_VALUE] at *
        omega
      rw [dealer_turn, dif_neg hge]
  | succ k ih =>
      intro hand deck hf
      rw [dealer_turn]
      by_cases hlt : calculate_hand_value hand < DEALER_HIT_STAY_VALUE
      · rw [dif_pos hlt]
        cases hdeal : deal_card deck (fun _ => create_deck NUM_DECKS shuffle) with
        | none => exact Nat.le_refl _
        | some p =>
            obtain ⟨c, deck1⟩ := p
            have hrec := ih (hand ++ [c]) deck1 (by
              have h1 := min_total_le_value hand
              have h2 := rank_min_value_pos (get_rank c)
              rw [min_total_append_singleton]
              simp only [DEALER_HIT_STAY_VALUE] at *
              omega)
            have hlen : hand.length ≤ (hand ++ [c]).length := by simp
            exact le_trans hlen hrec
      · rw [dif_neg hlt]

theorem dealer_turn_final_ge (shuffle : List Card → List Card)
    (hs : ∀ l : List Card, (shuffle l).length = l.length) :
    ∀ (fuel : Nat) (hand deck : List Card),
      DEALER_HIT_STAY_VALUE - min_total hand ≤ fuel →
      DEALER_HIT_STAY_VALUE ≤ calculate_hand_value (dealer_turn shuffle hand deck).1 := by
  intro fuel
  induction fuel with
  | zero =>
      intro hand deck hf
      have hge : ¬ calculate_hand_value hand < DEALER_HIT_STAY_VALUE := by
        have := min_total_le_value hand
        simp only [DEALER_HIT_STAY_VALUE] at *
        omega
      rw [dealer_turn, dif_neg hge]
      exact Nat.not_lt.mp hge
  | succ k ih =>
      intro hand deck hf
      rw [dealer_turn]
      by_cases hlt : calculate_hand_value hand < DEALER_HIT_STAY_VALUE
      · rw [dif_pos hlt]
        obtain ⟨c, deck1, hdeal⟩ := deal_card_some NUM_DECKS shuffle (by decide) hs deck
        rw [hdeal]
        exact ih (hand ++ [c]) deck1 (by
          have h1 := min_total_le_value hand
          have h2 := rank_min_value_pos (get_rank c)
          rw [min_total_append_singleton]
          simp only [DEALER_HIT_STAY_VALUE] at *
          omega)
      · rw [dif_neg hlt]
        exact Nat.not_lt.mp hlt

theorem length_pos_isEmpty_false {l : List Card} (h : l ≠ []) : l.isEmpty = false := by
  cases l with
  | nil => exact absurd rfl h
  | cons a t => rfl

theorem draw_n_succ (shuffle : List Card → List Card) (num_decks n : Nat)
    (deck : List Card) :
    draw_n shuffle num_decks (n + 1) deck =
      match deal_card deck (fun _ => create_deck num_decks shuffle) with
      | none => none
      | some (_, deck1) =>
          match draw_n shuffle num_decks n deck1 with
          | none => none
          | some (d, r) => some (d, r + (if deck.isEmpty then 1 else 0)) := by
  simp only [draw_n]

theorem draw_n_full_cycle (shuffle : List Card → List Card)
    (hs : ∀ l : List Card, (shuffle l).length = l.length) :
    ∀ (k : Nat) (deck : List Card), deck.length = k →
      ∃ d : List Card, draw_n shuffle 6 (k + 1) deck = some (d, 1) ∧ d.length = 311 := by
  intro k
  induction k with
  | zero =>
      intro deck hlen
      have hnil : deck = [] := List.length_eq_zero.mp hlen
      subst hnil
      have hclen : (create_deck 6 shuffle).length = 6 * 52 := create_deck_length 6 shuffle hs
      have hne : create_deck 6 shuffle ≠ [] := by
        intro h
        rw [h] at hclen
        simp at hclen
      obtain ⟨c, hc⟩ := getLast_of_ne_nil hne
      refine ⟨(create_deck 6 shuffle).dropLast, ?_, ?_⟩
      · simp only [draw_n, deal_card, List.isEmpty_nil, if_true, hc]
      · rw [List.length_dropLast, hclen]
  | succ k ih =>
      intro deck hlen
      have hne : deck ≠ [] := by
        intro h
        rw [h] at hlen
        simp at hlen
      have hemp : deck.isEmpty = false := length_pos_isEmpty_false hne
      obtain ⟨c, hc⟩ := getLast_of_ne_nil hne
      obtain ⟨d, hd, hdlen⟩ := ih deck.dropLast
        (by rw [List.length_dropLast, hlen]; omega)
      refine ⟨d, ?_, hdlen⟩
      have hdc : deal_card deck (fun _ => create_deck 6 shuffle) = some (c, deck.dropLast) := by
        simp only [deal_card, hemp, Bool.false_eq_true, if_false, hc]
      rw [draw_n_succ]
      simp only [hdc, hd, hemp, Bool.false_eq_true, if_false]

/-- C1: evaluation of the insurance settlement of src/blackJack.py
(lines 259-297) at bet 20, insurance taken, dealer holding blackjack,
starting balance 100. With no player blackjack the code returns 110
(net +10): the insurance payout is credited but the lost main bet is never
deducted, despite the printed "You lose your main bet." With a player
blackjack the code returns 130 (net +30): the "push" adds the bet to a
balance from which it was never deducted. The specified nets are -10 and
+10 respectively. -/
theorem insurance_settlement_on_dealer_blackjack :
    insurance_phase 100 20 true false true true = Sum.inr 110 ∧
    insurance_phase 100 20 true true true true = Sum.inr 130 := by
  exact ⟨rfl, rfl⟩

/-- C2: evaluation of the split settlement of src/blackJack.py
(lines 337-415) at bet 10, starting balance 100, both split hands worth 18
against a dealer 18 (both push). The code returns 110 (net +10), not the
specified 100 (net 0): only one of the two split bets is ever deducted
while each push pays back a full bet. Win/loss cases are shifted by the
same +bet. -/
theorem split_settlement_on_double_push :
    split_settlement 100 10
      [[(Rank.r9, Suit.Hearts), (Rank.r9, Suit.Spades)],
       [(Rank.r9, Suit.Clubs), (Rank.r9, Suit.Diamonds)]]
      [(Rank.r10, Suit.Hearts), (Rank.r8, Suit.Spades)] = 110 ∧
    split_settlement 100 10
      [[(Rank.r9, Suit.Hearts), (Rank.r9, Suit.Spades)],
       [(Rank.r9, Suit.Clubs), (Rank.r9, Suit.Diamonds)]]
      [(Rank.r10, Suit.Hearts), (Rank.r9, Suit.Diamonds)] = 90 := by
  exact ⟨rfl, rfl⟩

/-- C3: evaluation of the double-down settlement of src/blackJack.py
(lines 443-457, 492-505) at bet 10, starting balance 100, hand 10+4 plus
one drawn card. Push against dealer 18 returns 90 (net -10, specified 0);
loss against dealer 19 returns 70 (net -30, specified -20); win against
dealer 17 returns 110 (net +10, specified +20); bust (drawing a J) returns
90 (net -10, specified -20). The extra deducted bet is double-counted on a
loss and the doubled stake is not charged on the other outcomes. -/
theorem double_down_settlement_outcomes :
    double_down_play 100 10 [(Rank.r10, Suit.Hearts), (Rank.r4, Suit.Spades)]
      (Rank.r4, Suit.Clubs) [(Rank.r10, Suit.Diamonds), (Rank.r8, Suit.Spades)] = 90 ∧
    double_down_play 100 10 [(Rank.r10, Suit.Hearts), (Rank.r4, Suit.Spades)]
      (Rank.r4, Suit.Clubs) [(Rank.r10, Suit.Diamonds), (Rank.r9, Suit.Spades)] = 70 ∧
    double_down_play 100 10 [(Rank.r10, Suit.Hearts), (Rank.r4, Suit.Spades)]
      (Rank.r4, Suit.Clubs) [(Rank.r10, Suit.Diamonds), (Rank.r7, Suit.Spades)] = 110 ∧
    double_down_play 100 10 [(Rank.r10, Suit.Hearts), (Rank.r4, Suit.Spades)]
      (Rank.J, Suit.Clubs) [(Rank.r10, Suit.Diamonds), (Rank.r8, Suit.Spades)] = 90 := by
  exact ⟨rfl, rfl, rfl, rfl⟩

/-- C4 counterexample: in the split-hand play loop the answer "d" is not a
double down; it falls to the "Invalid choice" branch and re-prompts, so the
double down option is not available on a split hand. -/
theorem split_turn_rejects_double : split_hand_action "d" = none := by
  rfl

/-- C4 amended: a split hand is played with a hit/stand-only loop; no input
ever produces a double down on a split hand, while the unsplit two-card
hand with can_double_down accepts "d" as a double down. -/
theorem split_turn_hit_stand_only :
    (∀ choice : String, split_hand_action choice ≠ some PlayerAction.double) ∧
    main_hand_action 2 true "d" = some PlayerAction.double := by
  constructor
  · intro choice
    unfold split_hand_action
    split_ifs <;> simp
  · rfl

/-- C5: for every hand, calculate_hand_value returns the best achievable
total with each Ace independently counted as 1 or 11 - the maximum
achievable total that is at most 21, or the all-Aces-as-1 minimum if even
that exceeds 21; in particular a hand of Ace, Ace, 9 is worth 21. -/
theorem hand_value_is_best_achievable :
    (∀ hand : List Card, calculate_hand_value hand = spec_hand_value hand) ∧
    calculate_hand_value
      [(Rank.A, Suit.Hearts), (Rank.A, Suit.Spades), (Rank.r9, Suit.Clubs)] = 21 := by
  constructor
  · intro hand
    rw [calculate_hand_value_eq_best, spec_hand_value_eq_best]
  · rfl

/-- C6: in the dealer drawing loop the dealer draws exactly when the hand
value is strictly below DEALER_HIT_STAY_VALUE = 17: a hand valued at least
17 draws nothing, a hand valued below 17 (for instance 16) gains at least
one card, and the loop only stops once the dealer's value is at least 17. -/
theorem dealer_draws_iff_below_17 (shuffle : List Card → List Card)
    (hs : ∀ l : List Card, (shuffle l).length = l.length)
    (dealer_hand deck : List Card) :
    (DEALER_HIT_STAY_VALUE ≤ calculate_hand_value dealer_hand →
      dealer_turn shuffle dealer_hand deck = (dealer_hand, deck)) ∧
    (calculate_hand_value dealer_hand < DEALER_HIT_STAY_VALUE →
      dealer_hand.length + 1 ≤ (dealer_turn shuffle dealer_hand deck).1.length) ∧
    DEALER_HIT_STAY_VALUE ≤ calculate_hand_value (dealer_turn shuffle dealer_hand deck).1 := by
  refine ⟨?_, ?_, ?_⟩
  · intro h17
    rw [dealer_turn, dif_neg (Nat.not_lt.mpr h17)]
  · intro hlt
    rw [dealer_turn, dif_pos hlt]
    obtain ⟨c, deck1, hdeal⟩ := deal_card_some NUM_DECKS shuffle (by decide) hs deck
    rw [hdeal]
    have hrec := dealer_turn_length_le shuffle
      (DEALER_HIT_STAY_VALUE - min_total (dealer_hand ++ [c]))
      (dealer_hand ++ [c]) deck1 (Nat.le_refl _)
    have hlen : dealer_hand.length + 1 = (dealer_hand ++ [c]).length := by simp
    rw [hlen]
    exact hrec
  · exact dealer_turn_final_ge shuffle hs
      (DEALER_HIT_STAY_VALUE - min_total dealer_hand) dealer_hand deck (Nat.le_refl _)

/-- Witness for C6: with the identity shuffle, a dealer hand of 10 and 7
(value 17) draws no card. -/
theorem dealer_draws_iff_below_17_check :
    dealer_turn id [(Rank.r10, Suit.Hearts), (Rank.r7, Suit.Spades)] [] =
      ([(Rank.r10, Suit.Hearts), (Rank.r7, Suit.Spades)], []) :=
  (dealer_draws_iff_below_17 id (fun _ => rfl)
    [(Rank.r10, Suit.Hearts), (Rank.r7, Suit.Spades)] []).1 (by decide)

/-- C7: with at least one deck configured, deal_card always yields a card
(reshuffling an empty shoe first); a 6-deck shoe holds exactly 312 cards;
and drawing 313 cards from a fresh 6-deck shoe performs exactly one
internal reshuffle and leaves 311 cards. The shuffle is assumed
length-preserving, matching random.shuffle which permutes in place. -/
theorem shoe_draw_total_and_reshuffle (num_decks : Nat)
    (shuffle : List Card → List Card) (hnd : 1 ≤ num_decks)
    (hs : ∀ l : List Card, (shuffle l).length = l.length) :
    (∀ deck : List Card, ∃ c deck1,
        deal_card deck (fun _ => create_deck num_decks shuffle) = some (c, deck1)) ∧
    (create_deck 6 shuffle).length = 312 ∧
    (∃ d : List Card, draw_n shuffle 6 313 (create_deck 6 shuffle) = some (d, 1) ∧
        d.length = 311) := by
  refine ⟨fun deck => deal_card_some num_decks shuffle hnd hs deck, ?_, ?_⟩
  · rw [create_deck_length 6 shuffle hs]
  · have h312 : (create_deck 6 shuffle).length = 312 := by
      rw [create_deck_length 6 shuffle hs]
    have h313 : (313 : Nat) = 312 + 1 := rfl
    rw [h313]
    exact draw_n_full_cycle shuffle hs 312 (create_deck 6 shuffle) h312

/-- Witness for C7: the hypotheses hold for six decks and the identity
shuffle, and the fresh 6-deck shoe then has 312 cards. -/
theorem shoe_draw_total_and_reshuffle_check :
    (create_deck 6 (fun l => l)).length = 312 :=
  (shoe_draw_total_and_reshuffle 6 (fun l => l) (by decide) (fun _ => rfl)).2.1

/-- C8: when only the player holds a natural blackjack, the round returns
the balance plus the integer truncation of bet * 1.5: an odd bet of 11 pays
16 (not 17), and bet 10 on balance 100 yields exactly 115. -/
theorem blackjack_pays_three_halves_truncated :
    (∀ (rocks : Int) (bet : Nat),
        immediate_settlement rocks bet true false =
          some (rocks + ((bet * 3 / 2 : Nat) : Int))) ∧
    immediate_settlement 0 11 true false = some 16 ∧
    immediate_settlement 100 10 true false = some 115 := by
  exact ⟨fun rocks bet => rfl, rfl, rfl⟩

/-- C9: calculate_hand_value is invariant under permutation of the hand:
it only consumes the multiset of ranks, through their value sum and the
Ace count. As a Lean function it is pure by construction, matching the
side-effect-free reading of the source. -/
theorem hand_value_perm_invariant (h1 h2 : List Card) (hp : h1.Perm h2) :
    calculate_hand_value h1 = calculate_hand_value h2 := by
  have hsum : initial_total h1 = initial_total h2 :=
    ((hp.map get_rank).map rank_value).sum_eq
  have hcount : ace_count h1 = ace_count h2 :=
    (hp.map get_rank).count_eq Rank.A
  rw [calculate_hand_value, calculate_hand_value, hsum, hcount]

/-- Witness for C9: swapping the two cards of an Ace-9 hand leaves the
value unchanged. -/
theorem hand_value_perm_invariant_check :
    calculate_hand_value [(Rank.A, Suit.Hearts), (Rank.r9, Suit.Clubs)] =
      calculate_hand_value [(Rank.r9, Suit.Clubs), (Rank.A, Suit.Hearts)] :=
  hand_value_perm_invariant
    [(Rank.A, Suit.Hearts), (Rank.r9, Suit.Clubs)]
    [(Rank.r9, Suit.Clubs), (Rank.A, Suit.Hearts)] (by decide)

/-- C10: every two-card hand is worth at most 21 (two Aces soften to 12,
and no other pair exceeds 20), so a freshly dealt or freshly split two-card
hand is never bust. -/
theorem two_card_hand_never_bust :
    ∀ c1 c2 : Card, calculate_hand_value [c1, c2] ≤ 21 ∧ is_bust [c1, c2] = false := by
  decide

end BlackJack
